import Mathlib

/-!
# Verification of the aws-nitro-enclaves-nsm-api protocol layer

A shallow embedding of the NSM client library (src/api/mod.rs and
src/driver/mod.rs) together with proofs of the specification claims.

The protocol types (`Request`, `Response`, `ErrorCode`, `Digest`,
`AttestationDoc`) carry integer field/variant tags (the CBOR codec derive
attributes in api/mod.rs).  The codec encodes

* a struct as a CBOR map from field index to field value, optional fields
  whose value is `None` being omitted;
* an enum value as a two-element CBOR array of the variant index followed by
  the map of its fields (an empty map for unit variants);
* byte buffers as CBOR byte strings, strings as CBOR text strings, sets and
  sequences as CBOR arrays, ordered maps as CBOR maps in ascending key order.

Bytes are modelled as natural numbers (values below 256); machine integers
(`u16`, `u64`, `usize`) as natural numbers bounded in the well-formedness
predicates where the width matters.
-/

namespace NSM

/-- CBOR data items: the definite-length subset the codec reads and writes.
`text` holds the UTF-8 bytes of a string, `simple` covers the simple values
(false = 20, true = 21, null = 22). -/
inductive CborItem where
  | uint (n : Nat)
  | bytes (bs : List Nat)
  | text (bs : List Nat)
  | arr (items : List CborItem)
  | map (pairs : List (CborItem × CborItem))
  | simple (n : Nat)

/-- Big-endian base-256 digits of `n`, written with exactly `w` bytes. -/
def beBytes : Nat → Nat → List Nat
  | 0, _ => []
  | w + 1, n => n / 2 ^ (8 * w) % 256 :: beBytes w n

/-- The initial bytes of a CBOR data item of major type `major` with argument
`arg`: the minimal-width head the encoder writes. -/
def hdr (major arg : Nat) : List Nat :=
  if arg < 24 then [32 * major + arg]
  else if arg < 2 ^ 8 then (32 * major + 24) :: beBytes 1 arg
  else if arg < 2 ^ 16 then (32 * major + 25) :: beBytes 2 arg
  else if arg < 2 ^ 32 then (32 * major + 26) :: beBytes 4 arg
  else (32 * major + 27) :: beBytes 8 arg

mutual

/-- Serialise one CBOR item to its byte sequence. -/
def serItem : CborItem → List Nat
  | .uint n => hdr 0 n
  | .bytes bs => hdr 2 bs.length ++ bs
  | .text bs => hdr 3 bs.length ++ bs
  | .arr its => hdr 4 its.length ++ serList its
  | .map prs => hdr 5 prs.length ++ serPairs prs

  | .simple n => hdr 7 n

/-- Serialise the elements of a CBOR array, in order. -/
def serList : List CborItem → List Nat
  | [] => []
  | i :: is => serItem i ++ serList is

/-- Serialise the entries of a CBOR map, in order, key before value. -/
def serPairs : List (CborItem × CborItem) → List Nat
  | [] => []
  | (k, v) :: ps => serItem k ++ serItem v ++ serPairs ps

end

mutual

/-- Arguments of the item fit the machine widths the encoder assumes:
all integer arguments (including lengths) are below `2 ^ 64`. -/
def wfItem : CborItem → Prop
  | .uint n => n < 2 ^ 64
  | .bytes bs => bs.length < 2 ^ 64
  | .text bs => bs.length < 2 ^ 64
  | .arr its => its.length < 2 ^ 64 ∧ wfList its
  | .map prs => prs.length < 2 ^ 64 ∧ wfPairs prs
  | .simple n => n < 24

/-- All items of a list are well-formed. -/
def wfList : List CborItem → Prop
  | [] => True
  | i :: is => wfItem i ∧ wfList is

/-- All keys and values of a map are well-formed. -/
def wfPairs : List (CborItem × CborItem) → Prop
  | [] => True
  | (k, v) :: ps => wfItem k ∧ wfItem v ∧ wfPairs ps

end

/-- Split off exactly `n` bytes of the input, failing when fewer remain. -/
def readN : Nat → List Nat → Option (List Nat × List Nat)
  | 0, bs => some ([], bs)
  | _ + 1, [] => none
  | n + 1, b :: bs => (readN n bs).map fun p => (b :: p.1, p.2)

/-- Decode the argument of a CBOR head whose additional-information bits are
`ai`, consuming the follow-up bytes it needs. -/
def parseArg (ai : Nat) (bs : List Nat) : Option (Nat × List Nat) :=
  if ai < 24 then some (ai, bs)
  else if ai = 24 then
    match bs with
    | b :: r => some (b, r)
    | [] => none
  else if ai = 25 then
    match bs with
    | b1 :: b0 :: r => some (b1 * 2 ^ 8 + b0, r)
    | _ => none
  else if ai = 26 then
    match bs with
    | b3 :: b2 :: b1 :: b0 :: r =>
      some (b3 * 2 ^ 24 + b2 * 2 ^ 16 + b1 * 2 ^ 8 + b0, r)
    | _ => none
  else if ai = 27 then
    match bs with
    | b7 :: b6 :: b5 :: b4 :: b3 :: b2 :: b1 :: b0 :: r =>
      some (b7 * 2 ^ 56 + b6 * 2 ^ 48 + b5 * 2 ^ 40 + b4 * 2 ^ 32 +
            b3 * 2 ^ 24 + b2 * 2 ^ 16 + b1 * 2 ^ 8 + b0, r)
    | _ => none
  else none

mutual

/-- Read one CBOR item from the front of the input, returning it with the
unread remainder.  `fuel` bounds the recursion depth; every call decreases
it, and the top-level entry points supply enough for any input they accept. -/
def parseItem : Nat → List Nat → Option (CborItem × List Nat)
  | 0, _ => none
  | _ + 1, [] => none
  | fuel + 1, b :: bs =>
    match parseArg (b % 32) bs with
    | none => none
    | some (arg, r) =>
      match b / 32 with
      | 0 => some (.uint arg, r)
      | 2 =>
        match readN arg r with
        | some (xs, r2) => some (.bytes xs, r2)
        | none => none
      | 3 =>
        match readN arg r with
        | some (xs, r2) => some (.text xs, r2)
        | none => none
      | 4 =>
        match parseItems fuel arg r with
        | some (its, r2) => some (.arr its, r2)
        | none => none
      | 5 =>
        match parsePairs fuel arg r with
        | some (prs, r2) => some (.map prs, r2)
        | none => none
      | 7 => some (.simple arg, r)
      | _ => none

/-- Read `n` consecutive CBOR items (the elements of an array). -/
def parseItems : Nat → Nat → List Nat → Option (List CborItem × List Nat)
  | _, 0, bs => some ([], bs)
  | 0, _ + 1, _ => none
  | fuel + 1, n + 1, bs =>
    match parseItem fuel bs with
    | none => none
    | some (it, r) =>
      match parseItems fuel n r with
      | none => none
      | some (its, r2) => some (it :: its, r2)

/-- Read `n` consecutive key-value pairs (the entries of a map). -/
def parsePairs : Nat → Nat → List Nat →
    Option (List (CborItem × CborItem) × List Nat)
  | _, 0, bs => some ([], bs)
  | 0, _ + 1, _ => none
  | fuel + 1, n + 1, bs =>
    match parseItem fuel bs with
    | none => none
    | some (k, r) =>
      match parseItem fuel r with
      | none => none
      | some (v, r2) =>
        match parsePairs fuel n r2 with
        | none => none
        | some (prs, r3) => some ((k, v) :: prs, r3)

end

/-! ## Round trip of the CBOR layer -/

theorem beBytes_len (w n : Nat) : (beBytes w n).length = w := by
  induction w generalizing n with
  | zero => simp [beBytes]
  | succ w ih => simp [beBytes, ih]

theorem hdr_len_pos (major arg : Nat) : 1 ≤ (hdr major arg).length := by
  unfold hdr
  split_ifs <;> simp [beBytes_len]

theorem serItem_len_pos (it : CborItem) : 1 ≤ (serItem it).length := by
  cases it with
  | uint n => exact hdr_len_pos 0 n
  | bytes bs =>
    have := hdr_len_pos 2 bs.length
    simp only [serItem, List.length_append]
    omega
  | text bs =>
    have := hdr_len_pos 3 bs.length
    simp only [serItem, List.length_append]
    omega
  | arr its =>
    have := hdr_len_pos 4 its.length
    simp only [serItem, List.length_append]
    omega
  | map prs =>
    have := hdr_len_pos 5 prs.length
    simp only [serItem, List.length_append]
    omega
  | simple n => exact hdr_len_pos 7 n

theorem readN_append (bs rest : List Nat) :
    readN bs.length (bs ++ rest) = some (bs, rest) := by
  induction bs with
  | nil => simp [readN]
  | cons b tl ih => simp [readN, ih]

/-- Parsing the head written by `hdr` gives back the major type and the
argument, leaving the trailing bytes untouched. -/
theorem parseArg_hdr (major arg : Nat) (ha : arg < 2 ^ 64) (rest : List Nat) :
    ∃ b bs, hdr major arg ++ rest = b :: bs ∧ b / 32 = major ∧
      parseArg (b % 32) bs = some (arg, rest) := by
  unfold hdr
  split_ifs with h1 h2 h3 h4
  · have hm : (32 * major + arg) % 32 = arg := by omega
    refine ⟨32 * major + arg, rest, by simp, by omega, ?_⟩
    simp only [parseArg, hm, if_pos h1]
  · refine ⟨32 * major + 24, beBytes 1 arg ++ rest, by simp, by omega, ?_⟩
    have hm : (32 * major + 24) % 32 = 24 := by omega
    simp only [hm, parseArg, beBytes]
    norm_num
    omega
  · refine ⟨32 * major + 25, beBytes 2 arg ++ rest, by simp, by omega, ?_⟩
    have hm : (32 * major + 25) % 32 = 25 := by omega
    simp only [hm, parseArg, beBytes]
    norm_num
    omega
  · refine ⟨32 * major + 26, beBytes 4 arg ++ rest, by simp, by omega, ?_⟩
    have hm : (32 * major + 26) % 32 = 26 := by omega
    simp only [hm, parseArg, beBytes]
    norm_num
    omega
  · refine ⟨32 * major + 27, beBytes 8 arg ++ rest, by simp, by omega, ?_⟩
    have hm : (32 * major + 27) % 32 = 27 := by omega
    simp only [hm, parseArg, beBytes]
    norm_num
    omega

/-- Round-trip property of a single item: parsing its serialisation, at any
sufficient fuel and in front of any trailing bytes, gives it back. -/
def ItemRT (it : CborItem) : Prop :=
  ∀ fuel rest, wfItem it → 2 * (serItem it).length ≤ fuel →
    parseItem fuel (serItem it ++ rest) = some (it, rest)

theorem itemRT_uint (n : Nat) : ItemRT (.uint n) := by
  intro fuel rest hwf hfuel
  have hlen := serItem_len_pos (.uint n)
  have hn : n < 2 ^ 64 := by simpa [wfItem] using hwf
  obtain ⟨f, rfl⟩ : ∃ f, fuel = f + 1 := ⟨fuel - 1, by omega⟩
  obtain ⟨b, bs, heq, hdiv, hparse⟩ := parseArg_hdr 0 n hn rest
  rw [show serItem (.uint n) = hdr 0 n from rfl, heq]
  simp only [parseItem, hparse, hdiv]

theorem itemRT_simple (n : Nat) : ItemRT (.simple n) := by
  intro fuel rest hwf hfuel
  have hlen := serItem_len_pos (.simple n)
  have hn : n < 24 := by simpa [wfItem] using hwf
  obtain ⟨f, rfl⟩ : ∃ f, fuel = f + 1 := ⟨fuel - 1, by omega⟩
  obtain ⟨b, bs, heq, hdiv, hparse⟩ := parseArg_hdr 7 n (by omega) rest
  rw [show serItem (.simple n) = hdr 7 n from rfl, heq]
  simp only [parseItem, hparse, hdiv]

theorem itemRT_bytes (v : List Nat) : ItemRT (.bytes v) := by
  intro fuel rest hwf hfuel
  have hlen := serItem_len_pos (.bytes v)
  have hn : v.length < 2 ^ 64 := by simpa [wfItem] using hwf
  obtain ⟨f, rfl⟩ : ∃ f, fuel = f + 1 := ⟨fuel - 1, by omega⟩
  obtain ⟨b, bs, heq, hdiv, hparse⟩ := parseArg_hdr 2 v.length hn (v ++ rest)
  rw [show serItem (.bytes v) ++ rest = hdr 2 v.length ++ (v ++ rest) by
    simp [serItem], heq]
  simp only [parseItem, hparse, hdiv, readN_append]

theorem itemRT_text (v : List Nat) : ItemRT (.text v) := by
  intro fuel rest hwf hfuel
  have hlen := serItem_len_pos (.text v)
  have hn : v.length < 2 ^ 64 := by simpa [wfItem] using hwf
  obtain ⟨f, rfl⟩ : ∃ f, fuel = f + 1 := ⟨fuel - 1, by omega⟩
  obtain ⟨b, bs, heq, hdiv, hparse⟩ := parseArg_hdr 3 v.length hn (v ++ rest)
  rw [show serItem (.text v) ++ rest = hdr 3 v.length ++ (v ++ rest) by
    simp [serItem], heq]
  simp only [parseItem, hparse, hdiv, readN_append]

theorem parseItems_serList (its : List CborItem) (ih : ∀ i ∈ its, ItemRT i) :
    ∀ fuel rest, wfList its → 2 * (serList its).length + 1 ≤ fuel →
      parseItems fuel its.length (serList its ++ rest) = some (its, rest) := by
  induction its with
  | nil =>
    intro fuel rest _ _
    simp [serList, parseItems]
  | cons a as ihl =>
    intro fuel rest hwf hfuel
    obtain ⟨hwa, hwas⟩ : wfItem a ∧ wfList as := by simpa [wfList] using hwf
    have ha := serItem_len_pos a
    have hlen : (serList (a :: as)).length =
        (serItem a).length + (serList as).length := by simp [serList]
    obtain ⟨f, rfl⟩ : ∃ f, fuel = f + 1 := ⟨fuel - 1, by omega⟩
    have h1 : parseItem f (serItem a ++ (serList as ++ rest)) =
        some (a, serList as ++ rest) :=
      ih a (by simp) f _ hwa (by omega)
    have h2 : parseItems f as.length (serList as ++ rest) = some (as, rest) :=
      ihl (fun i hi => ih i (by simp [hi])) f rest hwas (by omega)
    rw [show serList (a :: as) ++ rest = serItem a ++ (serList as ++ rest) by
      simp [serList]]
    simp only [parseItems, List.length_cons, h1, h2]

theorem parsePairs_serPairs (prs : List (CborItem × CborItem))
    (ih : ∀ p ∈ prs, ItemRT p.1 ∧ ItemRT p.2) :
    ∀ fuel rest, wfPairs prs → 2 * (serPairs prs).length + 1 ≤ fuel →
      parsePairs fuel prs.length (serPairs prs ++ rest) = some (prs, rest) := by
  induction prs with
  | nil =>
    intro fuel rest _ _
    simp [serPairs, parsePairs]
  | cons p ps ihl =>
    intro fuel rest hwf hfuel
    obtain ⟨k, v⟩ := p
    obtain ⟨hwk, hwv, hwps⟩ : wfItem k ∧ wfItem v ∧ wfPairs ps := by
      simpa [wfPairs] using hwf
    have hk := serItem_len_pos k
    have hv := serItem_len_pos v
    have hlen : (serPairs ((k, v) :: ps)).length =
        (serItem k).length + (serItem v).length + (serPairs ps).length := by
      simp [serPairs]
      omega
    have ihk : ItemRT k := (ih (k, v) (by simp)).1
    have ihv : ItemRT v := (ih (k, v) (by simp)).2
    obtain ⟨f, rfl⟩ : ∃ f, fuel = f + 1 := ⟨fuel - 1, by omega⟩
    have h1 : parseItem f (serItem k ++ (serItem v ++ (serPairs ps ++ rest))) =
        some (k, serItem v ++ (serPairs ps ++ rest)) :=
      ihk f _ hwk (by omega)
    have h2 : parseItem f (serItem v ++ (serPairs ps ++ rest)) =
        some (v, serPairs ps ++ rest) :=
      ihv f _ hwv (by omega)
    have h3 : parsePairs f ps.length (serPairs ps ++ rest) = some (ps, rest) :=
      ihl (fun q hq => ih q (by simp [hq])) f rest hwps (by omega)
    rw [show serPairs ((k, v) :: ps) ++ rest =
        serItem k ++ (serItem v ++ (serPairs ps ++ rest)) by simp [serPairs]]
    simp only [parsePairs, List.length_cons, h1, h2, h3]

/-- Every well-formed CBOR item parses back from its own serialisation. -/
theorem itemRT (it : CborItem) : ItemRT it := by
  have H : ∀ n (it : CborItem), sizeOf it ≤ n → ItemRT it := by
    intro n
    induction n with
    | zero =>
      intro it hle
      cases it <;> simp at hle
    | succ n ihn =>
      intro it hle
      cases it with
      | uint m => exact itemRT_uint m
      | bytes v => exact itemRT_bytes v
      | text v => exact itemRT_text v
      | simple m => exact itemRT_simple m
      | arr its =>
        have hsz : sizeOf its ≤ n := by
          have : sizeOf (CborItem.arr its) = 1 + sizeOf its := by simp
          omega
        have ihs : ∀ i ∈ its, ItemRT i := fun i hi =>
          ihn i (by have := List.sizeOf_lt_of_mem hi; omega)
        intro fuel rest hwf hfuel
        obtain ⟨h64, hwfl⟩ : its.length < 2 ^ 64 ∧ wfList its := by
          simpa [wfItem] using hwf
        have hlp := hdr_len_pos 4 its.length
        have hlen : (serItem (.arr its)).length =
            (hdr 4 its.length).length + (serList its).length := by
          simp [serItem]
        obtain ⟨f, rfl⟩ : ∃ f, fuel = f + 1 := ⟨fuel - 1, by omega⟩
        obtain ⟨b, bs, heq, hdiv, hparse⟩ :=
          parseArg_hdr 4 its.length h64 (serList its ++ rest)
        have hitems : parseItems f its.length (serList its ++ rest) =
            some (its, rest) :=
          parseItems_serList its ihs f rest hwfl (by omega)
        rw [show serItem (.arr its) ++ rest =
            hdr 4 its.length ++ (serList its ++ rest) by simp [serItem], heq]
        simp only [parseItem, hparse, hdiv, hitems]
      | map prs =>
        have hsz : sizeOf prs ≤ n := by
          have : sizeOf (CborItem.map prs) = 1 + sizeOf prs := by simp
          omega
        have ihs : ∀ p ∈ prs, ItemRT p.1 ∧ ItemRT p.2 := by
          intro p hp
          have hplt := List.sizeOf_lt_of_mem hp
          obtain ⟨k, v⟩ := p
          have hpsz : sizeOf (k, v) = 1 + sizeOf k + sizeOf v := by simp
          exact ⟨ihn k (by omega), ihn v (by omega)⟩
        intro fuel rest hwf hfuel
        obtain ⟨h64, hwfp⟩ : prs.length < 2 ^ 64 ∧ wfPairs prs := by
          simpa [wfItem] using hwf
        have hlp := hdr_len_pos 5 prs.length
        have hlen : (serItem (.map prs)).length =
            (hdr 5 prs.length).length + (serPairs prs).length := by
          simp [serItem]
        obtain ⟨f, rfl⟩ : ∃ f, fuel = f + 1 := ⟨fuel - 1, by omega⟩
        obtain ⟨b, bs, heq, hdiv, hparse⟩ :=
          parseArg_hdr 5 prs.length h64 (serPairs prs ++ rest)
        have hpairs : parsePairs f prs.length (serPairs prs ++ rest) =
            some (prs, rest) :=
          parsePairs_serPairs prs ihs f rest hwfp (by omega)
        rw [show serItem (.map prs) ++ rest =
            hdr 5 prs.length ++ (serPairs prs ++ rest) by simp [serItem], heq]
        simp only [parseItem, hparse, hdiv, hpairs]
  exact H (sizeOf it) it le_rfl

/-! ## Protocol schema (src/api/mod.rs)

Variant and field tags follow the codec attributes on each declaration. -/

/-- List of error codes that the NSM module can return as part of a Response;
variant tags 0-8 in declaration order. -/
inductive ErrorCode where
  | Success
  | InvalidArgument
  | InvalidIndex
  | InvalidResponse
  | ReadOnlyIndex
  | InvalidOperation
  | BufferTooSmall
  | InputTooLarge
  | InternalError
  deriving DecidableEq

/-- The digest implementation used by a NitroSecureModule; tags 0-2. -/
inductive Digest where
  | SHA256
  | SHA384
  | SHA512
  deriving DecidableEq

/-- Operations that a NitroSecureModule should implement.  Field types follow
the declarations: `index`/`range` are `u16`, data buffers are byte vectors,
the attestation inputs are optional byte vectors. -/
inductive Request where
  | DescribePCR (index : Nat)
  | ExtendPCR (index : Nat) (data : List Nat)
  | LockPCR (index : Nat)
  | LockPCRs (range : Nat)
  | DescribeNSM
  | Attestation (user_data : Option (List Nat)) (nonce : Option (List Nat))
      (public_key : Option (List Nat))
  | GetRandom
  deriving DecidableEq

/-- Responses received from a NitroSecureModule as a result of a Request.
`locked_pcrs` models the ordered `u16` set as a strictly ascending list. -/
inductive Response where
  | DescribePCR (lock : Bool) (data : List Nat)
  | ExtendPCR (data : List Nat)
  | LockPCR
  | LockPCRs
  | DescribeNSM (version_major version_minor version_patch : Nat)
      (module_id : List Nat) (max_pcrs : Nat) (locked_pcrs : List Nat)
      (digest : Digest)
  | Attestation (document : List Nat)
  | GetRandom (random : List Nat)
  | Error (code : ErrorCode)
  deriving DecidableEq

/-- An attestation response.  `module_id` holds the UTF-8 bytes of the string;
`pcrs` models the ordered register map as an association list in strictly
ascending key order (the order the map iterates in). -/
structure AttestationDoc where
  module_id : List Nat
  digest : Digest
  timestamp : Nat
  pcrs : List (Nat × List Nat)
  certificate : List Nat
  cabundle : List (List Nat)
  public_key : Option (List Nat)
  user_data : Option (List Nat)
  nonce : Option (List Nat)
  deriving DecidableEq

/-- Creates a new AttestationDoc from explicit field values
(src/api/mod.rs, `AttestationDoc::new`). -/
def AttestationDoc.new (module_id : List Nat) (digest : Digest)
    (timestamp : Nat) (pcrs : List (Nat × List Nat)) (certificate : List Nat)
    (cabundle : List (List Nat)) (user_data : Option (List Nat))
    (nonce : Option (List Nat)) (public_key : Option (List Nat)) :
    AttestationDoc :=
  { module_id := module_id
    digest := digest
    timestamp := timestamp
    pcrs := pcrs
    cabundle := cabundle
    certificate := certificate
    user_data := user_data
    nonce := nonce
    public_key := public_key }

/-! ## Item-level encoding of the schema -/

/-- Map entry for an optional field: omitted when the value is `None`. -/
def optField (tag : Nat) : Option (List Nat) → List (CborItem × CborItem)
  | none => []
  | some bs => [(.uint tag, .bytes bs)]

/-- Variant tag written on the wire for each `Digest` value. -/
def Digest.toItem : Digest → CborItem
  | .SHA256 => .arr [.uint 0, .map []]
  | .SHA384 => .arr [.uint 1, .map []]
  | .SHA512 => .arr [.uint 2, .map []]

/-- Encoding of a `Request`: a two-element array of the variant tag (0-6 in
declaration order) and the map of its fields keyed by field index. -/
def Request.toItem : Request → CborItem
  | .DescribePCR index => .arr [.uint 0, .map [(.uint 0, .uint index)]]
  | .ExtendPCR index data =>
    .arr [.uint 1, .map [(.uint 0, .uint index), (.uint 1, .bytes data)]]
  | .LockPCR index => .arr [.uint 2, .map [(.uint 0, .uint index)]]
  | .LockPCRs range => .arr [.uint 3, .map [(.uint 0, .uint range)]]
  | .DescribeNSM => .arr [.uint 4, .map []]
  | .Attestation user_data nonce public_key =>
    .arr [.uint 5,
      .map (optField 0 user_data ++ optField 1 nonce ++ optField 2 public_key)]
  | .GetRandom => .arr [.uint 6, .map []]

/-- PCR map entries in the order the ordered map iterates: key order. -/
def pcrsToPairs (pcrs : List (Nat × List Nat)) : List (CborItem × CborItem) :=
  pcrs.map fun p => (.uint p.1, .bytes p.2)

/-- Encoding of an `AttestationDoc`: a map keyed by the field tags 0-8, the
three optional fields omitted when `None`. -/
def AttestationDoc.toItem (d : AttestationDoc) : CborItem :=
  .map ([(.uint 0, .text d.module_id),
         (.uint 1, d.digest.toItem),
         (.uint 2, .uint d.timestamp),
         (.uint 3, .map (pcrsToPairs d.pcrs)),
         (.uint 4, .bytes d.certificate),
         (.uint 5, .arr (d.cabundle.map .bytes))]
        ++ optField 6 d.public_key ++ optField 7 d.user_data
        ++ optField 8 d.nonce)

/-- The encoder's write target is a growable byte vector whose error type is
uninhabited; serialisation therefore returns `Except Empty`. -/
def minicborToVec (it : CborItem) : Except Empty (List Nat) :=
  Except.ok (serItem it)

/-- The `unwrap`/`expect` on the encoder result: total, because the error
type of the vector writer is uninhabited. -/
def unwrapInfallible : Except Empty (List Nat) → List Nat
  | .ok v => v

/-- Helper function that converts an AttestationDoc structure to its CBOR
representation (src/api/mod.rs, `AttestationDoc::to_binary`). -/
def AttestationDoc.to_binary (d : AttestationDoc) : List Nat :=
  unwrapInfallible (minicborToVec d.toItem)

/-! ## Item-level decoding -/

/-- Decode a byte vector: must be a CBOR byte string. -/
def bytesFromItem : CborItem → Option (List Nat)
  | .bytes bs => some bs
  | _ => none

/-- Decode a string: must be a CBOR text string. -/
def textFromItem : CborItem → Option (List Nat)
  | .text bs => some bs
  | _ => none

/-- Decode a boolean: the simple values false (20) and true (21). -/
def boolFromItem : CborItem → Option Bool
  | .simple 20 => some false
  | .simple 21 => some true
  | _ => none

/-- Decode a `u16`, rejecting wider values. -/
def u16FromItem : CborItem → Option Nat
  | .uint n => if n < 2 ^ 16 then some n else none
  | _ => none

/-- Decode a `u64`, rejecting wider values. -/
def u64FromItem : CborItem → Option Nat
  | .uint n => if n < 2 ^ 64 then some n else none
  | _ => none

/-- Decode an optional byte vector: null yields `None`. -/
def optBytesFromItem : CborItem → Option (Option (List Nat))
  | .simple 22 => some none
  | .bytes bs => some (some bs)
  | _ => none

/-- Decode a `Digest` variant tag. -/
def Digest.fromItem : CborItem → Option Digest
  | .arr [.uint t, .map _] =>
    match t with
    | 0 => some .SHA256
    | 1 => some .SHA384
    | 2 => some .SHA512
    | _ => none
  | _ => none

/-- Decode an `ErrorCode` variant tag. -/
def ErrorCode.fromItem : CborItem → Option ErrorCode
  | .arr [.uint t, .map _] =>
    match t with
    | 0 => some .Success
    | 1 => some .InvalidArgument
    | 2 => some .InvalidIndex
    | 3 => some .InvalidResponse
    | 4 => some .ReadOnlyIndex
    | 5 => some .InvalidOperation
    | 6 => some .BufferTooSmall
    | 7 => some .InputTooLarge
    | 8 => some .InternalError
    | _ => none
  | _ => none

/-- Ordered-map insertion: keeps keys strictly ascending, a later binding for
an existing key replacing the earlier one. -/
def insertPcr (k : Nat) (v : List Nat) :
    List (Nat × List Nat) → List (Nat × List Nat)
  | [] => [(k, v)]
  | (k0, v0) :: rest =>
    if k < k0 then (k, v) :: (k0, v0) :: rest
    else if k = k0 then (k, v) :: rest
    else (k0, v0) :: insertPcr k v rest

/-- Ordered-set insertion: keeps elements strictly ascending. -/
def insertU16 (k : Nat) : List Nat → List Nat
  | [] => [k]
  | x :: xs =>
    if k < x then k :: x :: xs
    else if k = x then x :: xs
    else x :: insertU16 k xs

/-- Left fold of a fallible step over a list, stopping at the first failure:
the iteration pattern of every map/sequence decoder. -/
def foldSteps {α β : Type} (f : α → β → Option α) : α → List β → Option α
  | acc, [] => some acc
  | acc, b :: bs =>
    match f acc b with
    | some acc2 => foldSteps f acc2 bs
    | none => none

/-- One decoding step of the PCR map: the key a register index, the value a
byte vector, inserted into the ordered map. -/
def pcrStep (acc : List (Nat × List Nat)) (p : CborItem × CborItem) :
    Option (List (Nat × List Nat)) :=
  match p with
  | (.uint k, .bytes v) => if k < 2 ^ 64 then some (insertPcr k v acc) else none
  | _ => none

/-- Decode the PCR map entry by entry. -/
def pcrsFromPairs (prs : List (CborItem × CborItem)) :
    Option (List (Nat × List Nat)) :=
  foldSteps pcrStep [] prs

/-- Decode a sequence of byte vectors (the CA bundle). -/
def bytesListFromItems : List CborItem → Option (List (List Nat))
  | [] => some []
  | .bytes bs :: r => (bytesListFromItems r).map fun l => bs :: l
  | _ => none

/-- Decode the ordered `u16` set, one insertion per element. -/
def setFromItems (its : List CborItem) : Option (List Nat) :=
  foldSteps (fun acc i => (u16FromItem i).map fun k => insertU16 k acc) [] its

/-- Partial state while decoding the fields of an `AttestationDoc` map. -/
structure DocAcc where
  module_id : Option (List Nat)
  digest : Option Digest
  timestamp : Option Nat
  pcrs : Option (List (Nat × List Nat))
  certificate : Option (List Nat)
  cabundle : Option (List (List Nat))
  public_key : Option (List Nat)
  user_data : Option (List Nat)
  nonce : Option (List Nat)

/-- The all-absent starting state. -/
def DocAcc.init : DocAcc :=
  ⟨none, none, none, none, none, none, none, none, none⟩

/-- One decoding step of the `AttestationDoc` map: dispatch on the field tag,
fail on a wrongly-typed value, skip tags not in the schema. -/
def docStep (acc : DocAcc) (p : CborItem × CborItem) : Option DocAcc :=
  match p with
  | (.uint 0, v) => (textFromItem v).map fun bs => { acc with module_id := some bs }
  | (.uint 1, v) => (Digest.fromItem v).map fun dg => { acc with digest := some dg }
  | (.uint 2, v) => (u64FromItem v).map fun n => { acc with timestamp := some n }
  | (.uint 3, v) =>
    match v with
    | .map prs => (pcrsFromPairs prs).map fun m => { acc with pcrs := some m }
    | _ => none
  | (.uint 4, v) => (bytesFromItem v).map fun bs => { acc with certificate := some bs }
  | (.uint 5, v) =>
    match v with
    | .arr its => (bytesListFromItems its).map fun l => { acc with cabundle := some l }
    | _ => none
  | (.uint 6, v) => (optBytesFromItem v).map fun o => { acc with public_key := o }
  | (.uint 7, v) => (optBytesFromItem v).map fun o => { acc with user_data := o }
  | (.uint 8, v) => (optBytesFromItem v).map fun o => { acc with nonce := o }
  | (.uint k, _) => if k < 2 ^ 32 then some acc else none
  | _ => none

/-- Require every mandatory field; the optional fields default to `None`. -/
def docFinish (acc : DocAcc) : Option AttestationDoc := do
  let mid ← acc.module_id
  let dg ← acc.digest
  let ts ← acc.timestamp
  let pc ← acc.pcrs
  let ct ← acc.certificate
  let cb ← acc.cabundle
  some ⟨mid, dg, ts, pc, ct, cb, acc.public_key, acc.user_data, acc.nonce⟩

/-- Decode an `AttestationDoc` from a CBOR item: a map folded field by
field, then checked for completeness. -/
def AttestationDoc.fromItem : CborItem → Option AttestationDoc
  | .map prs => foldSteps docStep DocAcc.init prs >>= docFinish
  | _ => none

/-- Fuel sufficient for any input the recursive item reader accepts. -/
def parseTop (bs : List Nat) : Option (CborItem × List Nat) :=
  parseItem (2 * bs.length + 2) bs

/-- Helper function that parses a CBOR representation of an AttestationDoc
and creates the structure from it, if possible (src/api/mod.rs,
`AttestationDoc::from_binary`); `none` models the structured decode error. -/
def AttestationDoc.from_binary (bin : List Nat) : Option AttestationDoc :=
  match parseTop bin with
  | some (it, _) => AttestationDoc.fromItem it
  | none => none

/-! ## Response decoding -/

/-- Decoding state for the two `DescribePCR` response fields. -/
def rspDescribePcrStep (acc : Option Bool × Option (List Nat))
    (p : CborItem × CborItem) : Option (Option Bool × Option (List Nat)) :=
  match p with
  | (.uint 0, v) => (boolFromItem v).map fun b => (some b, acc.2)
  | (.uint 1, v) => (bytesFromItem v).map fun d => (acc.1, some d)
  | (.uint k, _) => if k < 2 ^ 32 then some acc else none
  | _ => none

/-- Decoding step for a variant with one byte-vector field at tag 0
(`ExtendPCR.data`, `Attestation.document`, `GetRandom.random`). -/
def rspBytes0Step (acc : Option (List Nat)) (p : CborItem × CborItem) :
    Option (Option (List Nat)) :=
  match p with
  | (.uint 0, v) => (bytesFromItem v).map fun d => some d
  | (.uint k, _) => if k < 2 ^ 32 then some acc else none
  | _ => none

/-- Decoding state for the seven `DescribeNSM` response fields. -/
structure NsmAcc where
  version_major : Option Nat
  version_minor : Option Nat
  version_patch : Option Nat
  module_id : Option (List Nat)
  max_pcrs : Option Nat
  locked_pcrs : Option (List Nat)
  digest : Option Digest

/-- The all-absent starting state for `DescribeNSM`. -/
def NsmAcc.init : NsmAcc := ⟨none, none, none, none, none, none, none⟩

/-- Decoding step for the `DescribeNSM` fields, tags 0-6. -/
def rspNsmStep (acc : NsmAcc) (p : CborItem × CborItem) : Option NsmAcc :=
  match p with
  | (.uint 0, v) => (u16FromItem v).map fun n => { acc with version_major := some n }
  | (.uint 1, v) => (u16FromItem v).map fun n => { acc with version_minor := some n }
  | (.uint 2, v) => (u16FromItem v).map fun n => { acc with version_patch := some n }
  | (.uint 3, v) => (textFromItem v).map fun m => { acc with module_id := some m }
  | (.uint 4, v) => (u16FromItem v).map fun n => { acc with max_pcrs := some n }
  | (.uint 5, v) =>
    match v with
    | .arr its => (setFromItems its).map fun l => { acc with locked_pcrs := some l }
    | _ => none
  | (.uint 6, v) => (Digest.fromItem v).map fun dg => { acc with digest := some dg }
  | (.uint k, _) => if k < 2 ^ 32 then some acc else none
  | _ => none

/-- Require every `DescribeNSM` field. -/
def rspNsmFinish (acc : NsmAcc) : Option Response := do
  let vmaj ← acc.version_major
  let vmin ← acc.version_minor
  let vpat ← acc.version_patch
  let mid ← acc.module_id
  let mp ← acc.max_pcrs
  let lp ← acc.locked_pcrs
  let dg ← acc.digest
  some (Response.DescribeNSM vmaj vmin vpat mid mp lp dg)

/-- Decoding step for the `Error` field at tag 0. -/
def rspErrStep (acc : Option ErrorCode) (p : CborItem × CborItem) :
    Option (Option ErrorCode) :=
  match p with
  | (.uint 0, v) => (ErrorCode.fromItem v).map fun c => some c
  | (.uint k, _) => if k < 2 ^ 32 then some acc else none
  | _ => none

/-- A unit variant carries an empty field map; entries that do appear are
skipped as long as their tags are indices. -/
def skipAll (prs : List (CborItem × CborItem)) : Option Unit :=
  foldSteps (fun _ p =>
    match p.1 with
    | .uint k => if k < 2 ^ 32 then some () else none
    | _ => none) () prs

/-- Decode a `Response` from a CBOR item: a two-element array of the variant
tag (0-7) and the map of fields; any unknown variant tag is a decode error. -/
def Response.fromItem : CborItem → Option Response
  | .arr [.uint t, .map prs] =>
    match t with
    | 0 =>
      foldSteps rspDescribePcrStep (none, none) prs >>= fun acc =>
        match acc with
        | (some lock, some data) => some (.DescribePCR lock data)
        | _ => none
    | 1 =>
      foldSteps rspBytes0Step none prs >>= fun acc =>
        acc.map Response.ExtendPCR
    | 2 => (skipAll prs).map fun _ => Response.LockPCR
    | 3 => (skipAll prs).map fun _ => Response.LockPCRs
    | 4 => foldSteps rspNsmStep NsmAcc.init prs >>= rspNsmFinish
    | 5 =>
      foldSteps rspBytes0Step none prs >>= fun acc =>
        acc.map Response.Attestation
    | 6 =>
      foldSteps rspBytes0Step none prs >>= fun acc =>
        acc.map Response.GetRandom
    | 7 => foldSteps rspErrStep none prs >>= fun acc => acc.map Response.Error
    | _ => none
  | _ => none

/-! ## Driver (src/driver/mod.rs) -/

/-- Maximum size of an encoded request: 0x1000 bytes. -/
def NSM_REQUEST_MAX_SIZE : Nat := 0x1000

/-- Fixed capacity reserved for the response buffer: 0x3000 bytes. -/
def NSM_RESPONSE_MAX_SIZE : Nat := 0x3000

/-- Linux errno value for "message too long" (`EMSGSIZE`). -/
def EMSGSIZE : Nat := 90

/-- Encode an NSM `Request` value into a byte vector
(src/driver/mod.rs, `nsm_encode_request_to_cbor`); the encoder result is
unwrapped, its error type being uninhabited. -/
def nsm_encode_request_to_cbor (request : Request) : List Nat :=
  unwrapInfallible (minicborToVec request.toItem)

/-- The fallible deserialisation of a `Response` from raw bytes (the library
call the driver wraps): `none` models every decode error, whether from
truncated or malformed bytes or from an unknown required field or variant. -/
def decodeResponseOpt (bs : List Nat) : Option Response :=
  match parseTop bs with
  | some (it, _) => Response.fromItem it
  | none => none

/-- Decode an NSM `Response` value from a raw memory buffer
(src/driver/mod.rs, `nsm_decode_response_from_cbor`): every decode failure
is absorbed into `Error(InternalError)`. -/
def nsm_decode_response_from_cbor (response_data : List Nat) : Response :=
  match decodeResponseOpt response_data with
  | some response => response
  | none => Response.Error ErrorCode.InternalError

/-- Outcome of one `ioctl()` device-control call: `status = none` means the
call succeeded and `response` holds the bytes the driver wrote into the
caller-reserved buffer; `status = some errno` reports the failing error. -/
structure IoctlResult where
  status : Option Nat
  response : List Nat

/-- Create a message from a request, send it to the NSM driver via one
`ioctl()` and decode the driver response (src/driver/mod.rs,
`nsm_process_request`).  The device-control call is abstracted as the
function argument `ioctl`; the second component of the result counts how
many times it was invoked. -/
def nsm_process_request (ioctl : List Nat → IoctlResult) (request : Request) :
    Response × Nat :=
  let cbor_request := nsm_encode_request_to_cbor request
  if cbor_request.length > NSM_REQUEST_MAX_SIZE then
    (Response.Error ErrorCode.InputTooLarge, 0)
  else
    let res := ioctl cbor_request
    match res.status with
    | none => (nsm_decode_response_from_cbor res.response, 1)
    | some errno =>
      if errno = EMSGSIZE then (Response.Error ErrorCode.InputTooLarge, 1)
      else (Response.Error ErrorCode.InternalError, 1)

/-- NSM library initialization function (src/driver/mod.rs, `nsm_init`).
The operating-system open of the device file is abstracted as its outcome:
a raw file descriptor (non-negative by the OS contract) or an error value.
On success the descriptor is returned, on failure the sentinel -1. -/
def nsm_init (open_dev : Except Nat Nat) : Int :=
  match open_dev with
  | .ok fd => (fd : Int)
  | .error _ => -1

/-! ## Well-formedness of an AttestationDoc -/

/-- Byte-vector lengths fit the machine word. -/
def bytesWF (bs : List Nat) : Prop := bs.length < 2 ^ 64

instance : DecidablePred bytesWF := fun _ => Nat.decLt _ _

/-- Optional byte vectors: well-formed when present. -/
def optWF : Option (List Nat) → Prop
  | none => True
  | some bs => bytesWF bs

instance : DecidablePred optWF := fun o =>
  match o with
  | none => Decidable.isTrue trivial
  | some _ => Nat.decLt _ _

/-- A well-formed `AttestationDoc` value: the ordered-map invariant of `pcrs`
(strictly ascending keys) plus the machine-width bounds its field types
impose. -/
def AttestationDoc.WF (d : AttestationDoc) : Prop :=
  bytesWF d.module_id ∧ d.timestamp < 2 ^ 64 ∧
  d.pcrs.Pairwise (fun p q => p.1 < q.1) ∧
  d.pcrs.length < 2 ^ 64 ∧
  (∀ p ∈ d.pcrs, p.1 < 2 ^ 64 ∧ bytesWF p.2) ∧
  bytesWF d.certificate ∧
  d.cabundle.length < 2 ^ 64 ∧ (∀ c ∈ d.cabundle, bytesWF c) ∧
  optWF d.public_key ∧ optWF d.user_data ∧ optWF d.nonce

theorem wfPairs_append (l1 l2 : List (CborItem × CborItem)) :
    wfPairs (l1 ++ l2) ↔ wfPairs l1 ∧ wfPairs l2 := by
  induction l1 with
  | nil => simp [wfPairs]
  | cons p ps ih =>
    obtain ⟨k, v⟩ := p
    simp only [List.cons_append, wfPairs, ih]
    tauto

theorem wf_digestToItem (g : Digest) : wfItem g.toItem := by
  cases g <;> simp [Digest.toItem, wfItem, wfList, wfPairs]

theorem wfPairs_pcrsToPairs (pcrs : List (Nat × List Nat))
    (h : ∀ p ∈ pcrs, p.1 < 2 ^ 64 ∧ bytesWF p.2) :
    wfPairs (pcrsToPairs pcrs) := by
  induction pcrs with
  | nil => simp [pcrsToPairs, wfPairs]
  | cons p ps ih =>
    obtain ⟨k, v⟩ := p
    have hk := h (k, v) (by simp)
    simp only [pcrsToPairs, List.map_cons, wfPairs, wfItem]
    refine ⟨hk.1, hk.2, ?_⟩
    simpa [pcrsToPairs] using ih fun q hq => h q (by simp [hq])

theorem wfList_bytesList (l : List (List Nat)) (h : ∀ c ∈ l, bytesWF c) :
    wfList (l.map .bytes) := by
  induction l with
  | nil => simp [wfList]
  | cons a as ih =>
    simp only [List.map_cons, wfList, wfItem]
    exact ⟨h a (by simp), ih fun c hc => h c (by simp [hc])⟩

theorem wfPairs_optField (t : Nat) (ht : t < 2 ^ 64) (o : Option (List Nat))
    (h : optWF o) : wfPairs (optField t o) := by
  cases o with
  | none => simp [optField, wfPairs]
  | some bs =>
    simp only [optField, wfPairs, wfItem]
    exact ⟨ht, h, trivial⟩

theorem optField_len (t : Nat) (o : Option (List Nat)) :
    (optField t o).length ≤ 1 := by
  cases o <;> simp [optField]

/-- The item encoding of a well-formed document is a well-formed item. -/
theorem wfItem_toItem (d : AttestationDoc) (h : d.WF) : wfItem d.toItem := by
  obtain ⟨h1, h2, _hsort, hlen, hkeys, hc, hcb1, hcb2, hpk, hud, hn⟩ := h
  have l6 := optField_len 6 d.public_key
  have l7 := optField_len 7 d.user_data
  have l8 := optField_len 8 d.nonce
  have wA : wfPairs [(CborItem.uint 0, CborItem.text d.module_id),
      (CborItem.uint 1, d.digest.toItem),
      (CborItem.uint 2, CborItem.uint d.timestamp),
      (CborItem.uint 3, CborItem.map (pcrsToPairs d.pcrs)),
      (CborItem.uint 4, CborItem.bytes d.certificate),
      (CborItem.uint 5, CborItem.arr (d.cabundle.map CborItem.bytes))] := by
    simp only [wfPairs, wfItem]
    exact ⟨by norm_num, h1, by norm_num, wf_digestToItem d.digest,
      by norm_num, h2, by norm_num,
      ⟨by simpa [pcrsToPairs] using hlen, wfPairs_pcrsToPairs d.pcrs hkeys⟩,
      by norm_num, hc, by norm_num,
      ⟨by simpa using hcb1, wfList_bytesList d.cabundle hcb2⟩, trivial⟩
  have w6 := wfPairs_optField 6 (by norm_num) d.public_key hpk
  have w7 := wfPairs_optField 7 (by norm_num) d.user_data hud
  have w8 := wfPairs_optField 8 (by norm_num) d.nonce hn
  simp only [AttestationDoc.toItem, wfItem]
  constructor
  · simp only [List.length_append, List.length_cons, List.length_nil]
    omega
  · simp only [wfPairs_append]
    tauto

/-! ## Decoding inverts encoding, item level -/

theorem digest_rt (g : Digest) : Digest.fromItem g.toItem = some g := by
  cases g <;> rfl

theorem bytesList_rt (l : List (List Nat)) :
    bytesListFromItems (l.map .bytes) = some l := by
  induction l with
  | nil => rfl
  | cons a as ih => simp [bytesListFromItems, ih]

theorem insertPcr_last (l : List (Nat × List Nat)) (k : Nat) (v : List Nat)
    (h : ∀ p ∈ l, p.1 < k) : insertPcr k v l = l ++ [(k, v)] := by
  induction l with
  | nil => rfl
  | cons p ps ih =>
    obtain ⟨k0, v0⟩ := p
    have hk0 := h (k0, v0) (by simp)
    simp only at hk0
    simp only [insertPcr]
    rw [if_neg (by omega), if_neg (by omega), List.cons_append,
      ih fun q hq => h q (by simp [hq])]

theorem foldSteps_append {α β : Type} (f : α → β → Option α) (acc : α)
    (l1 l2 : List β) :
    foldSteps f acc (l1 ++ l2) =
      match foldSteps f acc l1 with
      | some a => foldSteps f a l2
      | none => none := by
  induction l1 generalizing acc with
  | nil => simp [foldSteps]
  | cons b bs ih =>
    simp only [List.cons_append, foldSteps]
    cases f acc b <;> simp [ih]

theorem pcrs_fold_rt (pcrs : List (Nat × List Nat)) :
    ∀ acc, (∀ a ∈ acc, ∀ p ∈ pcrs, a.1 < p.1) →
      pcrs.Pairwise (fun p q => p.1 < q.1) →
      (∀ p ∈ pcrs, p.1 < 2 ^ 64) →
      foldSteps pcrStep acc (pcrsToPairs pcrs) = some (acc ++ pcrs) := by
  induction pcrs with
  | nil =>
    intro acc _ _ _
    simp [pcrsToPairs, foldSteps]
  | cons p ps ih =>
    intro acc hacc hsort h64
    obtain ⟨k, v⟩ := p
    have hk64 : k < 2 ^ 64 := h64 (k, v) (by simp)
    obtain ⟨hhead, htail⟩ := List.pairwise_cons.mp hsort
    simp only [pcrsToPairs, List.map_cons, foldSteps, pcrStep, if_pos hk64]
    rw [insertPcr_last acc k v fun a ha => hacc a ha (k, v) (by simp)]
    have hacc2 : ∀ a ∈ acc ++ [(k, v)], ∀ q ∈ ps, a.1 < q.1 := by
      intro a ha q hq
      rcases List.mem_append.mp ha with hmem | hmem
      · exact hacc a hmem q (by simp [hq])
      · have : a = (k, v) := by simpa using hmem
        subst this
        exact hhead q hq
    have := ih (acc ++ [(k, v)]) hacc2 htail fun q hq => h64 q (by simp [hq])
    simpa [pcrsToPairs, List.append_assoc] using this

/-- Decoding the item encoding of a well-formed document restores it. -/
theorem fromItem_toItem (d : AttestationDoc) (h : d.WF) :
    AttestationDoc.fromItem d.toItem = some d := by
  obtain ⟨mid, dg, ts, pcrs, cert, cab, pk, ud, nn⟩ := d
  obtain ⟨h1, h2, hsort, hlen, hkeys, hc, hcb1, hcb2, hpk, hud, hn⟩ := h
  simp only at h2 hsort hkeys
  have h2l : ts < 18446744073709551616 := by omega
  have hpcrs : pcrsFromPairs (pcrsToPairs pcrs) = some pcrs := by
    simpa [pcrsFromPairs] using
      pcrs_fold_rt pcrs [] (by simp) hsort fun p hp => (hkeys p hp).1
  cases pk <;> cases ud <;> cases nn <;>
    simp [AttestationDoc.fromItem, AttestationDoc.toItem, foldSteps_append,
      foldSteps, docStep, DocAcc.init, textFromItem, u64FromItem,
      bytesFromItem, optBytesFromItem, digest_rt, hpcrs, bytesList_rt, h2l,
      optField, docFinish]

/-! ## The binary round trip -/

theorem parseTop_ser (it : CborItem) (h : wfItem it) :
    parseTop (serItem it) = some (it, []) := by
  have := itemRT it (2 * (serItem it).length + 2) [] h (by omega)
  simpa [parseTop] using this

theorem to_binary_eq (d : AttestationDoc) : d.to_binary = serItem d.toItem := rfl

theorem from_to_binary (d : AttestationDoc) (h : d.WF) :
    AttestationDoc.from_binary d.to_binary = some d := by
  rw [AttestationDoc.from_binary, to_binary_eq, parseTop_ser d.toItem (wfItem_toItem d h)]
  exact fromItem_toItem d h

/-! ## The specification claims -/

instance (d : AttestationDoc) : Decidable d.WF := by
  unfold AttestationDoc.WF
  infer_instance

/-- The "abcd" document of the repository test (Scenario A): concrete
round-trip input. -/
def docA : AttestationDoc :=
  ⟨[97, 98, 99, 100], .SHA256, 1234,
   [(1, [1, 2, 3]), (2, [4, 5, 6]), (3, [7, 8, 9])],
   List.replicate 10 42, [], none, some (List.replicate 10 255), none⟩

/-- C1: for every well-formed `AttestationDoc` value `v`,
`from_binary (to_binary v)` succeeds and yields a value equal to `v`, and
re-encoding that value with `to_binary` yields bytes identical to
`to_binary v` (byte-exact round trip). -/
theorem claim_C1_attestation_doc_round_trip (v : AttestationDoc) (h : v.WF) :
    AttestationDoc.from_binary v.to_binary = some v ∧
    ∀ v2, AttestationDoc.from_binary v.to_binary = some v2 →
      v2.to_binary = v.to_binary := by
  refine ⟨from_to_binary v h, ?_⟩
  intro v2 h2
  rw [from_to_binary v h] at h2
  have h3 : v = v2 := by simpa using h2
  rw [← h3]

theorem claim_C1_witness :
    docA.WF ∧
      (AttestationDoc.from_binary docA.to_binary = some docA ∧
       ∀ v2, AttestationDoc.from_binary docA.to_binary = some v2 →
         v2.to_binary = docA.to_binary) :=
  ⟨by decide, claim_C1_attestation_doc_round_trip docA (by decide)⟩

/-- The variant tag table of the wire contract:
DescribePCR = 0 through GetRandom = 6. -/
def requestVariantTag : Request → Nat
  | .DescribePCR _ => 0
  | .ExtendPCR _ _ => 1
  | .LockPCR _ => 2
  | .LockPCRs _ => 3
  | .DescribeNSM => 4
  | .Attestation _ _ _ => 5
  | .GetRandom => 6

/-- C2: every `Request` encodes as the two-element array of its permanent
small-integer variant tag (DescribePCR = 0 through GetRandom = 6) and a map
whose keys are the small-integer field positions counted from 0 — never
variant or field names. -/
theorem claim_C2_request_wire_tags (r : Request) :
    ∃ (pairs : List (CborItem × CborItem)) (ks : List Nat),
      r.toItem = .arr [.uint (requestVariantTag r), .map pairs] ∧
      pairs.map Prod.fst = ks.map CborItem.uint ∧
      ks.Pairwise (· < ·) ∧ ∀ k ∈ ks, k < 3 := by
  cases r with
  | DescribePCR index =>
    refine ⟨_, [0], rfl, by simp, by decide, by decide⟩
  | ExtendPCR index data =>
    refine ⟨_, [0, 1], rfl, by simp, by decide, by decide⟩
  | LockPCR index =>
    refine ⟨_, [0], rfl, by simp, by decide, by decide⟩
  | LockPCRs range =>
    refine ⟨_, [0], rfl, by simp, by decide, by decide⟩
  | DescribeNSM =>
    refine ⟨_, [], rfl, by simp, by decide, by decide⟩
  | GetRandom =>
    refine ⟨_, [], rfl, by simp, by decide, by decide⟩
  | Attestation ud n pk =>
    cases ud <;> cases n <;> cases pk
    · refine ⟨_, [], rfl, by simp [optField], by decide, by decide⟩
    · refine ⟨_, [2], rfl, by simp [optField], by decide, by decide⟩
    · refine ⟨_, [1], rfl, by simp [optField], by decide, by decide⟩
    · refine ⟨_, [1, 2], rfl, by simp [optField], by decide, by decide⟩
    · refine ⟨_, [0], rfl, by simp [optField], by decide, by decide⟩
    · refine ⟨_, [0, 2], rfl, by simp [optField], by decide, by decide⟩
    · refine ⟨_, [0, 1], rfl, by simp [optField], by decide, by decide⟩
    · refine ⟨_, [0, 1, 2], rfl, by simp [optField], by decide, by decide⟩

/-- C3: a `Request` whose encoding exceeds 4096 bytes yields
`Error(InputTooLarge)` and performs zero device-control calls, whatever the
transport would do. -/
theorem claim_C3_oversized_short_circuit (r : Request)
    (ioctl : List Nat → IoctlResult)
    (h : (nsm_encode_request_to_cbor r).length > NSM_REQUEST_MAX_SIZE) :
    nsm_process_request ioctl r = (Response.Error ErrorCode.InputTooLarge, 0) := by
  unfold nsm_process_request
  rw [if_pos h]

/-- A request whose encoding is 5009 bytes long. -/
def bigRequest : Request := Request.ExtendPCR 0 (List.replicate 5000 0)

theorem claim_C3_witness :
    (nsm_encode_request_to_cbor bigRequest).length > NSM_REQUEST_MAX_SIZE ∧
    nsm_process_request (fun _ => ⟨none, []⟩) bigRequest =
      (Response.Error ErrorCode.InputTooLarge, 0) :=
  have hlen : (nsm_encode_request_to_cbor bigRequest).length >
      NSM_REQUEST_MAX_SIZE := by
    norm_num [nsm_encode_request_to_cbor, minicborToVec, unwrapInfallible,
      bigRequest, Request.toItem, serItem, serList, serPairs, hdr, beBytes,
      NSM_REQUEST_MAX_SIZE]
  ⟨hlen, claim_C3_oversized_short_circuit bigRequest _ hlen⟩

/-- C4: every byte buffer on which the response deserialisation fails is
absorbed into `Response::Error(InternalError)` — the decode entry point is a
total function into `Response` and never escapes with anything else. -/
theorem claim_C4_decode_failure_absorbed (bs : List Nat)
    (h : decodeResponseOpt bs = none) :
    nsm_decode_response_from_cbor bs = Response.Error ErrorCode.InternalError := by
  unfold nsm_decode_response_from_cbor
  rw [h]

theorem claim_C4_witness :
    decodeResponseOpt [] = none ∧
    nsm_decode_response_from_cbor [] = Response.Error ErrorCode.InternalError :=
  ⟨rfl, claim_C4_decode_failure_absorbed [] rfl⟩

/-- C5: when the device-control call fails with errno `e`, the exchange
returns `Error(InputTooLarge)` exactly when `e` is EMSGSIZE and
`Error(InternalError)` for every other errno — never the raw error. -/
theorem claim_C5_errno_mapping (r : Request) (e : Nat) (resp : List Nat)
    (h : (nsm_encode_request_to_cbor r).length ≤ NSM_REQUEST_MAX_SIZE) :
    nsm_process_request (fun _ => ⟨some e, resp⟩) r =
      ((if e = EMSGSIZE then Response.Error ErrorCode.InputTooLarge
        else Response.Error ErrorCode.InternalError), 1) := by
  unfold nsm_process_request
  rw [if_neg (by omega)]
  split <;> simp_all

theorem claim_C5_witness :
    (nsm_encode_request_to_cbor (Request.DescribePCR 0)).length ≤
        NSM_REQUEST_MAX_SIZE ∧
    nsm_process_request (fun _ => ⟨some 90, []⟩) (Request.DescribePCR 0) =
      ((if 90 = EMSGSIZE then Response.Error ErrorCode.InputTooLarge
        else Response.Error ErrorCode.InternalError), 1) :=
  ⟨by decide, claim_C5_errno_mapping (Request.DescribePCR 0) 90 [] (by decide)⟩

/-- C6: `nsm_init` is a total function of the open outcome: on success it
returns the (non-negative) descriptor, on failure the negative sentinel -1 —
never a protocol error value, never a partial result. -/
theorem claim_C6_init_branches (res : Except Nat Nat) :
    (∃ fd, res = .ok fd ∧ nsm_init res = (fd : Int) ∧ 0 ≤ nsm_init res) ∨
    (∃ e, res = .error e ∧ nsm_init res = -1 ∧ nsm_init res < 0) := by
  cases res with
  | ok fd =>
    exact Or.inl ⟨fd, rfl, rfl, by simp [nsm_init]⟩
  | error e =>
    exact Or.inr ⟨e, rfl, rfl, by simp [nsm_init]⟩

/-- C7: encoding is infallible — the encoder returns `Ok` for every
`Request` and every `AttestationDoc`, and the public entry points return
exactly the encoded bytes. -/
theorem claim_C7_encode_infallible :
    (∀ r : Request, ∃ bs, minicborToVec r.toItem = Except.ok bs ∧
        nsm_encode_request_to_cbor r = bs) ∧
    (∀ d : AttestationDoc, ∃ bs, minicborToVec d.toItem = Except.ok bs ∧
        d.to_binary = bs) :=
  ⟨fun r => ⟨serItem r.toItem, rfl, rfl⟩,
   fun d => ⟨serItem d.toItem, rfl, rfl⟩⟩

/-- C8: the keys of the `pcrs` mapping are unique, and the encoder emits the
`pcrs` entries in the list order of the mapping — strictly ascending key
order — inside the field-3 entry of the document map. -/
theorem claim_C8_pcrs_unique_ascending (d : AttestationDoc) (h : d.WF) :
    (pcrsToPairs d.pcrs).map Prod.fst =
      (d.pcrs.map Prod.fst).map CborItem.uint ∧
    (d.pcrs.map Prod.fst).Pairwise (· < ·) ∧
    (d.pcrs.map Prod.fst).Nodup ∧
    (CborItem.uint 3, CborItem.map (pcrsToPairs d.pcrs)) ∈
      (match d.toItem with | .map prs => prs | _ => []) := by
  obtain ⟨_, _, hsort, _, _, _, _, _, _, _, _⟩ := h
  refine ⟨by simp [pcrsToPairs], ?_, ?_, ?_⟩
  · exact (List.pairwise_map).mpr hsort
  · exact ((List.pairwise_map).mpr hsort).imp Nat.ne_of_lt
  · simp [AttestationDoc.toItem]

/-- A small two-register document. -/
def docB : AttestationDoc :=
  ⟨[110, 115, 109], .SHA384, 77, [(0, [5]), (4, [6])], [1], [[2], [3]],
   some [9], none, none⟩

theorem claim_C8_witness :
    docB.WF ∧
      ((pcrsToPairs docB.pcrs).map Prod.fst =
        (docB.pcrs.map Prod.fst).map CborItem.uint ∧
      (docB.pcrs.map Prod.fst).Pairwise (· < ·) ∧
      (docB.pcrs.map Prod.fst).Nodup ∧
      (CborItem.uint 3, CborItem.map (pcrsToPairs docB.pcrs)) ∈
        (match docB.toItem with | .map prs => prs | _ => [])) :=
  ⟨by decide, claim_C8_pcrs_unique_ascending docB (by decide)⟩

/-- C9: `AttestationDoc::new` validates and normalises nothing: every field
of the result equals the same-named argument exactly, for all arguments. -/
theorem claim_C9_new_copies_arguments (module_id : List Nat) (digest : Digest)
    (timestamp : Nat) (pcrs : List (Nat × List Nat)) (certificate : List Nat)
    (cabundle : List (List Nat))
    (user_data nonce public_key : Option (List Nat)) :
    (AttestationDoc.new module_id digest timestamp pcrs certificate cabundle
        user_data nonce public_key).module_id = module_id ∧
    (AttestationDoc.new module_id digest timestamp pcrs certificate cabundle
        user_data nonce public_key).digest = digest ∧
    (AttestationDoc.new module_id digest timestamp pcrs certificate cabundle
        user_data nonce public_key).timestamp = timestamp ∧
    (AttestationDoc.new module_id digest timestamp pcrs certificate cabundle
        user_data nonce public_key).pcrs = pcrs ∧
    (AttestationDoc.new module_id digest timestamp pcrs certificate cabundle
        user_data nonce public_key).certificate = certificate ∧
    (AttestationDoc.new module_id digest timestamp pcrs certificate cabundle
        user_data nonce public_key).cabundle = cabundle ∧
    (AttestationDoc.new module_id digest timestamp pcrs certificate cabundle
        user_data nonce public_key).user_data = user_data ∧
    (AttestationDoc.new module_id digest timestamp pcrs certificate cabundle
        user_data nonce public_key).nonce = nonce ∧
    (AttestationDoc.new module_id digest timestamp pcrs certificate cabundle
        user_data nonce public_key).public_key = public_key :=
  ⟨rfl, rfl, rfl, rfl, rfl, rfl, rfl, rfl, rfl⟩

/-- C10: on every failure of the device open, `nsm_init` returns exactly the
value -1, independent of the underlying error. -/
theorem claim_C10_sentinel_is_minus_one (e : Nat) :
    nsm_init (.error e) = -1 := rfl

end NSM
